import Mathlib

/-!
# Verification of the KAZU entity/document data model

A shallow embedding of the core data model of the KAZU biomedical NLP
library (`kazu/data/data.py`, `kazu/steps/other/cleanup.py`,
`azner/steps/linking/sapbert.py`) together with proofs about it.

Modelling conventions:
* Python `int` is `Int`; character offsets are kept as `Int` because the
  source never restricts them.
* Python `frozenset`/`set` values are modelled as `List`s; where the source
  compares them with set equality, an explicit extensional-equality
  predicate is used.
* Python object identity (used by `Entity.__eq__`/`__hash__`) is modelled
  with an explicit `uid : Nat` field: distinct allocations carry distinct
  uids.
* `float` score payloads are never computed with, only stored and copied,
  so they are modelled as `Int` payloads.
* Fallible constructors (`raise`) return `Except String`/`Option`.
* The external `StringNormalizer.normalize` is a parameter
  (`normalize : String → String → String`), as the spec treats it as an
  external pure function.
-/

/-- `MentionConfidence(IntEnum)` from `kazu/data/data.py`. -/
inductive MentionConfidence where
  | HIGHLY_LIKELY
  | PROBABLE
  | POSSIBLE
  | IGNORE
deriving DecidableEq, Repr

/-- The integer value of a `MentionConfidence` member. -/
def MentionConfidence.val : MentionConfidence → Nat
  | .HIGHLY_LIKELY => 100
  | .PROBABLE => 50
  | .POSSIBLE => 10
  | .IGNORE => 0

/-- `member.name`, used by the JSON converter hook for `MentionConfidence`. -/
def MentionConfidence.name : MentionConfidence → String
  | .HIGHLY_LIKELY => "HIGHLY_LIKELY"
  | .PROBABLE => "PROBABLE"
  | .POSSIBLE => "POSSIBLE"
  | .IGNORE => "IGNORE"

/-- `MentionConfidence[name]`, the structure hook (fails on unknown names). -/
def MentionConfidence.fromName : String → Option MentionConfidence
  | "HIGHLY_LIKELY" => some .HIGHLY_LIKELY
  | "PROBABLE" => some .PROBABLE
  | "POSSIBLE" => some .POSSIBLE
  | "IGNORE" => some .IGNORE
  | _ => none

/-- `StringMatchConfidence(AutoNameEnum)`: the value of each member is its name. -/
inductive StringMatchConfidence where
  | HIGHLY_LIKELY
  | PROBABLE
  | POSSIBLE
deriving DecidableEq, Repr

def StringMatchConfidence.value : StringMatchConfidence → String
  | .HIGHLY_LIKELY => "HIGHLY_LIKELY"
  | .PROBABLE => "PROBABLE"
  | .POSSIBLE => "POSSIBLE"

def StringMatchConfidence.ofValue : String → Option StringMatchConfidence
  | "HIGHLY_LIKELY" => some .HIGHLY_LIKELY
  | "PROBABLE" => some .PROBABLE
  | "POSSIBLE" => some .POSSIBLE
  | _ => none

/-- `DisambiguationConfidence(AutoNameEnum)`. -/
inductive DisambiguationConfidence where
  | HIGHLY_LIKELY
  | PROBABLE
  | POSSIBLE
  | AMBIGUOUS
deriving DecidableEq, Repr

def DisambiguationConfidence.value : DisambiguationConfidence → String
  | .HIGHLY_LIKELY => "HIGHLY_LIKELY"
  | .PROBABLE => "PROBABLE"
  | .POSSIBLE => "POSSIBLE"
  | .AMBIGUOUS => "AMBIGUOUS"

def DisambiguationConfidence.ofValue : String → Option DisambiguationConfidence
  | "HIGHLY_LIKELY" => some .HIGHLY_LIKELY
  | "PROBABLE" => some .PROBABLE
  | "POSSIBLE" => some .POSSIBLE
  | "AMBIGUOUS" => some .AMBIGUOUS
  | _ => none

/-- `EquivalentIdAggregationStrategy(AutoNameEnum)`. -/
inductive EquivalentIdAggregationStrategy where
  | NO_STRATEGY
  | RESOLVED_BY_SIMILARITY
  | SYNONYM_IS_AMBIGUOUS
  | CUSTOM
  | UNAMBIGUOUS
  | MERGED_AS_NON_SYMBOLIC
  | MODIFIED_BY_CURATION
  | RESOLVED_BY_XREF
deriving DecidableEq, Repr

def EquivalentIdAggregationStrategy.value : EquivalentIdAggregationStrategy → String
  | .NO_STRATEGY => "NO_STRATEGY"
  | .RESOLVED_BY_SIMILARITY => "RESOLVED_BY_SIMILARITY"
  | .SYNONYM_IS_AMBIGUOUS => "SYNONYM_IS_AMBIGUOUS"
  | .CUSTOM => "CUSTOM"
  | .UNAMBIGUOUS => "UNAMBIGUOUS"
  | .MERGED_AS_NON_SYMBOLIC => "MERGED_AS_NON_SYMBOLIC"
  | .MODIFIED_BY_CURATION => "MODIFIED_BY_CURATION"
  | .RESOLVED_BY_XREF => "RESOLVED_BY_XREF"

def EquivalentIdAggregationStrategy.ofValue : String → Option EquivalentIdAggregationStrategy
  | "NO_STRATEGY" => some .NO_STRATEGY
  | "RESOLVED_BY_SIMILARITY" => some .RESOLVED_BY_SIMILARITY
  | "SYNONYM_IS_AMBIGUOUS" => some .SYNONYM_IS_AMBIGUOUS
  | "CUSTOM" => some .CUSTOM
  | "UNAMBIGUOUS" => some .UNAMBIGUOUS
  | "MERGED_AS_NON_SYMBOLIC" => some .MERGED_AS_NON_SYMBOLIC
  | "MODIFIED_BY_CURATION" => some .MODIFIED_BY_CURATION
  | "RESOLVED_BY_XREF" => some .RESOLVED_BY_XREF
  | _ => none

/-- `CuratedTermBehaviour(AutoNameEnum)`. -/
inductive CuratedTermBehaviour where
  | ADD_FOR_NER_AND_LINKING
  | ADD_FOR_LINKING_ONLY
  | DROP_SYNONYM_TERM_FOR_LINKING
deriving DecidableEq, Repr

/-- `CharSpan`: a character-index span.  The Python field `end` is a Lean
keyword, hence `end_`. -/
structure CharSpan where
  start : Int
  end_ : Int
deriving DecidableEq, Repr

/-- `CharSpan.is_partially_overlapped`, exactly as in the source:
`(other.start <= self.start <= other.end) or (other.start <= self.end <= other.end)`. -/
def CharSpan.isPartiallyOverlapped (self other : CharSpan) : Bool :=
  (other.start ≤ self.start ∧ self.start ≤ other.end_) ∨
    (other.start ≤ self.end_ ∧ self.end_ ≤ other.end_)

/-- Free-form JSON-encodable metadata.  The converter passes metadata
through unchanged in both directions, so its internal structure never
matters; it is modelled as string key/value pairs. -/
abbrev Metadata := List (String × String)

/-- `EquivalentIdSet`: a frozenset of `(id, source)` pairs, modelled as a list. -/
structure EquivalentIdSet where
  ids_and_source : List (String × String)
deriving DecidableEq, Repr

/-- `Mapping`, a fully mapped and disambiguated kb concept. -/
structure Mapping where
  default_label : String
  source : String
  parser_name : String
  idx : String
  string_match_strategy : String
  string_match_confidence : StringMatchConfidence
  disambiguation_confidence : Option DisambiguationConfidence
  disambiguation_strategy : Option String
  xref_source_parser_name : Option String
  metadata : Metadata
deriving DecidableEq, Repr

/-- `SynonymTermWithMetrics` (which extends `SynonymTerm` by the four
metric fields).  Frozensets are modelled as lists; float scores as `Int`
payloads. -/
structure SynonymTermWithMetrics where
  terms : List String
  term_norm : String
  parser_name : String
  is_symbolic : Bool
  associated_id_sets : List EquivalentIdSet
  aggregated_by : EquivalentIdAggregationStrategy
  mapping_types : List String
  search_score : Option Int
  embed_score : Option Int
  bool_score : Option Int
  exact_match : Option Bool
deriving DecidableEq, Repr

/-- Extensional (set) equality of two lists, mirroring Python
`frozenset.__eq__` on the modelled lists. -/
abbrev setEqv {α : Type} [DecidableEq α] (a b : List α) : Prop :=
  (∀ x ∈ a, x ∈ b) ∧ (∀ x ∈ b, x ∈ a)

/-- Python `==` on `EquivalentIdSet` values: set equality of their pairs. -/
abbrev eqIdSetEqv (s t : EquivalentIdSet) : Prop :=
  setEqv s.ids_and_source t.ids_and_source

/-- Python `==` on `frozenset[EquivalentIdSet]`: mutual containment with
`eqIdSetEqv` as element equality. -/
abbrev assocEqv (A B : List EquivalentIdSet) : Prop :=
  (∀ s ∈ A, ∃ t ∈ B, eqIdSetEqv s t) ∧ (∀ t ∈ B, ∃ s ∈ A, eqIdSetEqv s t)

/-- Python `==` on `SynonymTermWithMetrics`: the dataclass compares every
field that is not `compare=False`.  That is `terms`, `term_norm`,
`parser_name`, `is_symbolic`, `associated_id_sets` and — because
`mapping_types` is declared with `hash=False` but not `compare=False` —
also `mapping_types`.  The metric fields and `aggregated_by` are excluded
(`compare=False`). -/
abbrev keyEqv (a b : SynonymTermWithMetrics) : Prop :=
  setEqv a.terms b.terms ∧ a.term_norm = b.term_norm ∧
    a.parser_name = b.parser_name ∧ a.is_symbolic = b.is_symbolic ∧
    assocEqv a.associated_id_sets b.associated_id_sets ∧
    setEqv a.mapping_types b.mapping_types

/-- `SynonymTermWithMetrics.merge_metrics`: `dataclasses.replace(self, **nv)`
where `nv` holds the non-`None` metric fields of the incoming `term`. -/
def mergeMetrics (self term : SynonymTermWithMetrics) : SynonymTermWithMetrics :=
  { self with
    search_score := match term.search_score with
      | some v => some v
      | none => self.search_score
    embed_score := match term.embed_score with
      | some v => some v
      | none => self.embed_score
    bool_score := match term.bool_score with
      | some v => some v
      | none => self.bool_score
    exact_match := match term.exact_match with
      | some v => some v
      | none => self.exact_match }

/-- `Entity`.  `uid` models Python object identity (`id(self)`); the
`syn_term_to_synonym_terms` dict maps each structural key to its stored
(possibly merged) term, modelled here by the list of stored values in
insertion order, looked up via `keyEqv`.  `match`, `namespace` and `end`
are Lean keywords, hence the trailing underscores. -/
structure Entity where
  uid : Nat
  match_ : String
  entity_class : String
  spans : List CharSpan
  namespace_ : String
  mention_confidence : MentionConfidence
  mappings : List Mapping
  metadata : Metadata
  start : Int
  end_ : Int
  match_norm : String
  syn_term_to_synonym_terms : List SynonymTermWithMetrics
deriving DecidableEq, Repr

/-- Loop body for `earliest_start`: `math.inf` is modelled by `none`
(every integer start compares `<` against it). -/
def earliestStep (acc : Option Int) (sp : CharSpan) : Option Int :=
  match acc with
  | none => some sp.start
  | some v => if sp.start < v then some sp.start else acc

/-- Loop body for `latest_end` (initial value `0`). -/
def latestStep (acc : Int) (sp : CharSpan) : Int :=
  if sp.end_ > acc then sp.end_ else acc

/-- `Entity.calc_starts_and_ends`.  `earliest_start` starts at `math.inf`
(modelled by `none`) and `latest_end` at `0`; the `ValueError` branch is
the `earliest_start is inf` check. -/
def calcStartsAndEnds (spans : List CharSpan) : Except String (Int × Int) :=
  let earliest := spans.foldl earliestStep none
  let latest := spans.foldl latestStep (0 : Int)
  match earliest with
  | none => .error "spans are not valid"
  | some st => .ok (st, latest)

/-- Constructing an `Entity` runs `__post_init__`: derive `start`/`end`
via `calc_starts_and_ends` (raising for an invalid span set) and
`match_norm` via the external normalizer. -/
def mkEntity (normalize : String → String → String) (uid : Nat)
    (match_ entity_class : String) (spans : List CharSpan) (namespace_ : String)
    (mention_confidence : MentionConfidence) (mappings : List Mapping)
    (metadata : Metadata) (syn_terms : List SynonymTermWithMetrics) :
    Except String Entity :=
  match calcStartsAndEnds spans with
  | .error msg => .error msg
  | .ok (st, en) =>
      .ok { uid := uid, match_ := match_, entity_class := entity_class,
            spans := spans, namespace_ := namespace_,
            mention_confidence := mention_confidence, mappings := mappings,
            metadata := metadata, start := st, end_ := en,
            match_norm := normalize match_ entity_class,
            syn_term_to_synonym_terms := syn_terms }

/-- One step of `Entity.update_terms`: the dict `get`-then-set for a single
incoming term.  If an entry with an equal key exists, its stored value is
replaced by the merge; otherwise the incoming term is appended. -/
def updateTerm : List SynonymTermWithMetrics → SynonymTermWithMetrics →
    List SynonymTermWithMetrics
  | [], t => [t]
  | e :: rest, t =>
      if keyEqv e t then mergeMetrics e t :: rest else e :: updateTerm rest t

/-- `Entity.update_terms`, iterating over the incoming terms. -/
def updateTerms (store : List SynonymTermWithMetrics)
    (ts : List SynonymTermWithMetrics) : List SynonymTermWithMetrics :=
  ts.foldl updateTerm store

/-- The method itself, acting on the entity's term store. -/
def Entity.update_terms (e : Entity) (ts : List SynonymTermWithMetrics) : Entity :=
  { e with syn_term_to_synonym_terms := updateTerms e.syn_term_to_synonym_terms ts }

/-- `Entity.__eq__`: identity comparison (`id(self) == id(other)`). -/
def entityEq (a b : Entity) : Bool :=
  a.uid == b.uid

/-- `Entity.__hash__`: `id(self)`. -/
def entityHash (e : Entity) : Nat :=
  e.uid

/-- `Section`.  `_sentence_spans` is the hidden write-once field; the
`sentence_spans` property returns `()` while it is unset. -/
structure Section where
  text : String
  name : String
  metadata : Metadata
  entities : List Entity
  _sentence_spans : Option (List CharSpan)
deriving DecidableEq, Repr

/-- The `sentence_spans` property. -/
def Section.sentenceSpans (s : Section) : List CharSpan :=
  s._sentence_spans.getD []

/-- `Document`. -/
structure Document where
  idx : String
  sections : List Section
  metadata : Metadata
deriving DecidableEq, Repr

/-!
## The structural record format (`_json_converter`)

`_json_converter = cattrs.preconf.json.make_converter(omit_if_default=True)`
with the hooks registered in `kazu/data/data.py`.  A field whose value
equals its (possibly factory-produced) default is omitted on write; an
`Option` field of a record is `none` exactly when the key is absent from
the emitted dict.  Enums are written as strings (their `.value`, or `.name`
for `MentionConfidence`); frozensets and sets are written as lists.
-/

/-- Record form of `CharSpan` (`{"start": …, "end": …}`, no defaults, so it
is isomorphic to `CharSpan` itself). -/
abbrev CharSpanRec := CharSpan

/-- Record form of `EquivalentIdSet`: `ids_and_source` has an empty-frozenset
default, so it is omitted when empty. -/
structure EqIdSetRec where
  ids_and_source : Option (List (String × String))
deriving DecidableEq, Repr

def unstructureEqIdSet (s : EquivalentIdSet) : EqIdSetRec :=
  { ids_and_source := if s.ids_and_source = [] then none else some s.ids_and_source }

def structureEqIdSet (r : EqIdSetRec) : EquivalentIdSet :=
  { ids_and_source := r.ids_and_source.getD [] }

/-- Record form of `Mapping`: the three `Optional` fields default to `None`
and `metadata` to `{}`, so they are omitted at their defaults. -/
structure MappingRec where
  default_label : String
  source : String
  parser_name : String
  idx : String
  string_match_strategy : String
  string_match_confidence : String
  disambiguation_confidence : Option String
  disambiguation_strategy : Option String
  xref_source_parser_name : Option String
  metadata : Option Metadata
deriving DecidableEq, Repr

def unstructureMapping (m : Mapping) : MappingRec :=
  { default_label := m.default_label, source := m.source,
    parser_name := m.parser_name, idx := m.idx,
    string_match_strategy := m.string_match_strategy,
    string_match_confidence := m.string_match_confidence.value,
    disambiguation_confidence := m.disambiguation_confidence.map (·.value),
    disambiguation_strategy := m.disambiguation_strategy,
    xref_source_parser_name := m.xref_source_parser_name,
    metadata := if m.metadata = [] then none else some m.metadata }

/-- Helper: structuring an optional enum string (absent key → `None`
default; present key must parse). -/
def structDisConf : Option String → Option (Option DisambiguationConfidence)
  | none => some none
  | some s =>
      match DisambiguationConfidence.ofValue s with
      | some c => some (some c)
      | none => none

def structureMapping (r : MappingRec) : Option Mapping :=
  match StringMatchConfidence.ofValue r.string_match_confidence,
      structDisConf r.disambiguation_confidence with
  | some smc, some dc =>
      some { default_label := r.default_label, source := r.source,
             parser_name := r.parser_name, idx := r.idx,
             string_match_strategy := r.string_match_strategy,
             string_match_confidence := smc,
             disambiguation_confidence := dc,
             disambiguation_strategy := r.disambiguation_strategy,
             xref_source_parser_name := r.xref_source_parser_name,
             metadata := r.metadata.getD [] }
  | _, _ => none

/-- Record form of `SynonymTermWithMetrics`: `mapping_types` defaults to an
empty frozenset and the four metric fields to `None`, so those are omitted
at their defaults. -/
structure STWMRec where
  terms : List String
  term_norm : String
  parser_name : String
  is_symbolic : Bool
  associated_id_sets : List EqIdSetRec
  aggregated_by : String
  mapping_types : Option (List String)
  search_score : Option Int
  embed_score : Option Int
  bool_score : Option Int
  exact_match : Option Bool
deriving DecidableEq, Repr

def unstructureSTWM (m : SynonymTermWithMetrics) : STWMRec :=
  { terms := m.terms, term_norm := m.term_norm, parser_name := m.parser_name,
    is_symbolic := m.is_symbolic,
    associated_id_sets := m.associated_id_sets.map unstructureEqIdSet,
    aggregated_by := m.aggregated_by.value,
    mapping_types := if m.mapping_types = [] then none else some m.mapping_types,
    search_score := m.search_score, embed_score := m.embed_score,
    bool_score := m.bool_score, exact_match := m.exact_match }

def structureSTWM (r : STWMRec) : Option SynonymTermWithMetrics :=
  match EquivalentIdAggregationStrategy.ofValue r.aggregated_by with
  | some ag =>
      some { terms := r.terms, term_norm := r.term_norm,
             parser_name := r.parser_name, is_symbolic := r.is_symbolic,
             associated_id_sets := r.associated_id_sets.map structureEqIdSet,
             aggregated_by := ag,
             mapping_types := r.mapping_types.getD [],
             search_score := r.search_score, embed_score := r.embed_score,
             bool_score := r.bool_score, exact_match := r.exact_match }
  | none => none

/-- Record form of `Entity`.  The custom unstructure hook renames the
synonym-term dict to `synonym_terms` (a list of its values) and includes
the `init=False` fields `start`, `end` and `match_norm`;
`mention_confidence` (default `HIGHLY_LIKELY`), `mappings` (default empty),
`metadata` (default `{}`) and `synonym_terms` (default `{}`) are omitted at
their defaults. -/
structure EntityRec where
  match_ : String
  entity_class : String
  spans : List CharSpanRec
  namespace_ : String
  mention_confidence : Option String
  mappings : Option (List MappingRec)
  metadata : Option Metadata
  start : Int
  end_ : Int
  match_norm : String
  synonym_terms : Option (List STWMRec)
deriving DecidableEq, Repr

def unstructureEntity (e : Entity) : EntityRec :=
  { match_ := e.match_, entity_class := e.entity_class,
    spans := e.spans,
    namespace_ := e.namespace_,
    mention_confidence :=
      if e.mention_confidence = .HIGHLY_LIKELY then none
      else some e.mention_confidence.name,
    mappings := if e.mappings = [] then none else some (e.mappings.map unstructureMapping),
    metadata := if e.metadata = [] then none else some e.metadata,
    start := e.start, end_ := e.end_, match_norm := e.match_norm,
    synonym_terms :=
      if e.syn_term_to_synonym_terms = [] then none
      else some (e.syn_term_to_synonym_terms.map unstructureSTWM) }

def structureMappings : List MappingRec → Option (List Mapping)
  | [] => some []
  | r :: rest =>
      match structureMapping r, structureMappings rest with
      | some m, some ms => some (m :: ms)
      | _, _ => none

def structureSynTerms : List STWMRec → Option (List SynonymTermWithMetrics)
  | [] => some []
  | r :: rest =>
      match structureSTWM r, structureSynTerms rest with
      | some t, some ts => some (t :: ts)
      | _, _ => none

/-- Structuring `mention_confidence`: absent key → the default
`HIGHLY_LIKELY`; a present key must be a valid member name. -/
def structMentionConf : Option String → Option MentionConfidence
  | none => some .HIGHLY_LIKELY
  | some s => MentionConfidence.fromName s

/-- The generated structure hook for `Entity`: the `init=False` fields of
the record are ignored and recomputed by `__post_init__` (hence
`mkEntity`, with a fresh identity modelled as uid `0`). -/
def structureEntity (normalize : String → String → String) (r : EntityRec) :
    Option Entity :=
  match structMentionConf r.mention_confidence,
      structureMappings (r.mappings.getD []),
      structureSynTerms (r.synonym_terms.getD []) with
  | some mc, some maps, some syns =>
      match mkEntity normalize 0 r.match_ r.entity_class r.spans r.namespace_
          mc maps (r.metadata.getD []) syns with
      | .ok e => some e
      | .error _ => none
  | _, _, _ => none

/-- Record form of `Section`: `metadata` and `entities` are omitted at
their (empty) defaults; `_sentence_spans` is renamed to `sentence_spans`
and omitted at its default `None`. -/
structure SectionRec where
  text : String
  name : String
  metadata : Option Metadata
  entities : Option (List EntityRec)
  sentence_spans : Option (List CharSpanRec)
deriving DecidableEq, Repr

def unstructureSection (s : Section) : SectionRec :=
  { text := s.text, name := s.name,
    metadata := if s.metadata = [] then none else some s.metadata,
    entities := if s.entities = [] then none else some (s.entities.map unstructureEntity),
    sentence_spans := s._sentence_spans }

def structureEntities (normalize : String → String → String) :
    List EntityRec → Option (List Entity)
  | [] => some []
  | r :: rest =>
      match structureEntity normalize r, structureEntities normalize rest with
      | some e, some es => some (e :: es)
      | _, _ => none

/-- The registered structure hook for `Section`: a missing
`sentence_spans` key leaves the default `None`; a present empty list
becomes `None`, anything else a tuple of spans. -/
def structureSection (normalize : String → String → String) (r : SectionRec) :
    Option Section :=
  match structureEntities normalize (r.entities.getD []) with
  | some ents =>
      some { text := r.text, name := r.name,
             metadata := r.metadata.getD [],
             entities := ents,
             _sentence_spans :=
               match r.sentence_spans with
               | none => none
               | some l => if l.length = 0 then none else some l }
  | none => none

/-- Record form of `Document`: `sections` and `metadata` are omitted at
their (empty) defaults.  `idx` has a fresh-`uuid4` factory default, which a
stored idx never equals, so it is always written. -/
structure DocumentRec where
  idx : String
  sections : Option (List SectionRec)
  metadata : Option Metadata
deriving DecidableEq, Repr

def unstructureDocument (d : Document) : DocumentRec :=
  { idx := d.idx,
    sections := if d.sections = [] then none else some (d.sections.map unstructureSection),
    metadata := if d.metadata = [] then none else some d.metadata }

def structureSections (normalize : String → String → String) :
    List SectionRec → Option (List Section)
  | [] => some []
  | r :: rest =>
      match structureSection normalize r, structureSections normalize rest with
      | some s, some ss => some (s :: ss)
      | _, _ => none

def structureDocument (normalize : String → String → String) (r : DocumentRec) :
    Option Document :=
  match structureSections normalize (r.sections.getD []) with
  | some secs => some { idx := r.idx, sections := secs, metadata := r.metadata.getD [] }
  | none => none

/-!
## `DocumentJsonUtils.minify_json_dict`

The function indexes `doc_json_dict["sections"]`, `section_dict["entities"]`,
`_ent["mappings"]` and `ent["synonym_terms"]` unconditionally (once its
branch is taken); an absent key is a Python `KeyError`, modelled as
`Except.error` carrying the key name.
-/

/-- `d[k]`: `KeyError` when the key is absent. -/
def getKey {α : Type} (o : Option α) (k : String) : Except String α :=
  match o with
  | some v => .ok v
  | none => .error k

/-- `list(filter(lambda _ent: _ent["mappings"], section_entities))`:
keep entities whose `mappings` value is truthy (a non-empty list);
`KeyError` if an entity record has no `mappings` key. -/
def keepMapped : List EntityRec → Except String (List EntityRec)
  | [] => .ok []
  | e :: rest =>
      match getKey e.mappings "mappings" with
      | .error k => .error k
      | .ok ms =>
          match keepMapped rest with
          | .error k => .error k
          | .ok rest' => .ok (if ms.isEmpty then rest' else e :: rest')

/-- `for ent in ents_to_keep: ent["synonym_terms"].clear()`. -/
def clearTerms : List EntityRec → Except String (List EntityRec)
  | [] => .ok []
  | e :: rest =>
      match getKey e.synonym_terms "synonym_terms" with
      | .error k => .error k
      | .ok _ =>
          match clearTerms rest with
          | .error k => .error k
          | .ok rest' => .ok ({ e with synonym_terms := some [] } :: rest')

def minifySection (drop_unmapped_ents drop_terms : Bool) (s : SectionRec) :
    Except String SectionRec :=
  match getKey s.entities "entities" with
  | .error k => .error k
  | .ok ents =>
      match (if drop_unmapped_ents then keepMapped ents else .ok ents) with
      | .error k => .error k
      | .ok kept =>
          match (if drop_terms then clearTerms kept else .ok kept) with
          | .error k => .error k
          | .ok finalEnts => .ok { s with entities := some finalEnts }

def minifySections (drop_unmapped_ents drop_terms : Bool) :
    List SectionRec → Except String (List SectionRec)
  | [] => .ok []
  | s :: rest =>
      match minifySection drop_unmapped_ents drop_terms s with
      | .error k => .error k
      | .ok s' =>
          match minifySections drop_unmapped_ents drop_terms rest with
          | .error k => .error k
          | .ok rest' => .ok (s' :: rest')

/-- `DocumentJsonUtils.minify_json_dict`. -/
def minifyJsonDict (d : DocumentRec) (drop_unmapped_ents drop_terms : Bool) :
    Except String DocumentRec :=
  if drop_unmapped_ents || drop_terms then
    match getKey d.sections "sections" with
    | .error k => .error k
    | .ok secs =>
        match minifySections drop_unmapped_ents drop_terms secs with
        | .error k => .error k
        | .ok secs' => .ok { d with sections := some secs' }
  else .ok d

/-- `Document.as_minified_dict`: unstructure, then minify. -/
def asMinifiedDict (doc : Document) (drop_unmapped_ents drop_terms : Bool) :
    Except String DocumentRec :=
  minifyJsonDict (unstructureDocument doc) drop_unmapped_ents drop_terms

/-!
## `CuratedTerm` and its `__post_init__` conflict check
-/

/-- `MentionForm`. -/
structure MentionForm where
  string : String
  case_sensitive : Bool
  mention_confidence : MentionConfidence
deriving DecidableEq, Repr

/-- `CuratedTerm`, restricted to the fields `__post_init__` reads
(`associated_id_sets`, `_id`, `autocuration_results` and `comment` play no
role in construction-time checking). -/
structure CuratedTerm where
  original_forms : List MentionForm
  behaviour : CuratedTermBehaviour
  alternative_forms : List MentionForm
deriving DecidableEq, Repr

/-- `CuratedTerm.active_ner_forms`: for `ADD_FOR_NER_AND_LINKING`, every
original or alternative form whose confidence is not `IGNORE`.  The
frozenset union is modelled by list append (duplicates cannot change any
per-group confidence minimum). -/
def activeNerForms (t : CuratedTerm) : List MentionForm :=
  if t.behaviour = .ADD_FOR_NER_AND_LINKING then
    (t.original_forms ++ t.alternative_forms).filter
      (fun f => decide (f.mention_confidence ≠ .IGNORE))
  else []

/-- Python `str.lower()` on the modelled (ASCII) strings, written over the
character list so that it evaluates inside the kernel. -/
def lowerString (s : String) : String :=
  String.mk (s.data.map Char.toLower)

/-- `defaultdict(set).add`: append a confidence to the group keyed `k`
(sets of confidences are modelled as lists; minima are unaffected by
duplicates). -/
def addToGroup (groups : List (String × List MentionConfidence)) (k : String)
    (c : MentionConfidence) : List (String × List MentionConfidence) :=
  match groups with
  | [] => [(k, [c])]
  | (k', cs) :: rest =>
      if k' = k then (k', cs ++ [c]) :: rest else (k', cs) :: addToGroup rest k c

/-- The `cs_forms` dict of `__post_init__`: case-sensitive active forms
grouped by their exact string. -/
def csForms (forms : List MentionForm) : List (String × List MentionConfidence) :=
  forms.foldl
    (fun g f => if f.case_sensitive then addToGroup g f.string f.mention_confidence else g)
    []

/-- The `ci_forms` dict of `__post_init__`: case-insensitive active forms
grouped by their lowercased string. -/
def ciForms (forms : List MentionForm) : List (String × List MentionConfidence) :=
  forms.foldl
    (fun g f =>
      if f.case_sensitive then g
      else addToGroup g (lowerString f.string) f.mention_confidence)
    []

/-- `dict.get` on a confidence-group dict. -/
def lookupGroup (groups : List (String × List MentionConfidence)) (k : String) :
    Option (List MentionConfidence) :=
  (groups.find? (fun p => p.1 == k)).map (·.2)

/-- Python `min` over a (non-empty) confidence set, by `IntEnum` value. -/
def minConfVal : List MentionConfidence → Nat
  | [] => 0
  | c :: rest => rest.foldl (fun a c' => Nat.min a c'.val) c.val

/-- `CuratedTerm.__post_init__`, exactly as written in the source: after
rejecting an empty `original_forms`, it builds `cs_forms` and `ci_forms`,
but the conflict loop iterates `ci_forms.items()` (binding its entries to
the variables named `cs_form, cs_confidences`) and compares against
`ci_forms.get(cs_form.lower(), {POSSIBLE})` — so `cs_forms` is never
consulted. -/
def curatedTermPostInit (t : CuratedTerm) : Except String Unit :=
  if t.original_forms.isEmpty then .error "no forms"
  else
    let _cs_forms := csForms (activeNerForms t)
    let ci_forms := ciForms (activeNerForms t)
    if ci_forms.any (fun p =>
        decide (minConfVal ((lookupGroup ci_forms (lowerString p.1)).getD
            [MentionConfidence.POSSIBLE]) < minConfVal p.2)) then
      .error "case sensitive conflict"
    else .ok ()

/-!
## `SapBertForEntityLinkingStep`'s lookup cache (`azner/steps/linking/sapbert.py`)
-/

/-- The azner-era `Mapping` stored in the lookup cache
(`Mapping(source=…, idx=…, mapping_type=…)` in `_run`); its fields play no
role in the cache protocol. -/
structure MappingAz where
  source : String
  idx : String
  mapping_type : String
deriving DecidableEq, Repr

/-- The `LFUCache` contents as key/value pairs.  Eviction concerns only
insertion of new keys and is not modelled; the claims below are about keys
already present. -/
abbrev LookupCache := List (Nat × MappingAz)

/-- Cache lookup (`self.lookup_cache.get(hash_val, None)`). -/
def cacheLookup (cache : LookupCache) (k : Nat) : Option MappingAz :=
  (cache.find? (fun p => p.1 == k)).map (·.2)

/-- `update_lookup_cache`: `if hash_val not in self.lookup_cache:
self.lookup_cache[hash_val] = mapping`.  The hash value is computed by the
caller from `(entity.match, entity.entity_class)`. -/
def updateLookupCache (cache : LookupCache) (hashVal : Nat) (m : MappingAz) :
    LookupCache :=
  if (cacheLookup cache hashVal).isSome then cache else (hashVal, m) :: cache

/-- Modelled from the spec: `get_match_entity_class_hash` (defined in the
missing `steps/utils/utils.py`) is "a stable hash of
`(entity.match, entity.entity_class)`"; the concrete mixing function is
irrelevant to the cache protocol, so any deterministic function of the two
strings is a faithful model. -/
def getMatchEntityClassHash (m entity_class : String) : Nat :=
  m.length + 31 * entity_class.length

/-!
## `EntityFilterCleanupAction` (`kazu/steps/other/cleanup.py`)
-/

/-- Python `is`-comparison of two entities (set membership in
`cleanup` is by object identity). -/
def sameUid (a b : Entity) : Bool :=
  a.uid == b.uid

/-- `set(section.entities)`: deduplicate by identity, keeping the first
occurrence of each object. -/
def dedupUid : List Entity → List Entity
  | [] => []
  | e :: rest => e :: (dedupUid rest).filter (fun x => !(sameUid e x))

/-- `reduce(lambda ents, fn: filter(fn, ents), filter_fns, section_ents)`:
chain the filters, so the result holds the entities passing every filter. -/
def applyFilters (fns : List (Entity → Bool)) (ents : List Entity) : List Entity :=
  fns.foldl (fun acc fn => acc.filter fn) ents

/-- `EntityFilterCleanupAction.cleanup` on one section's entity list:
`section_ents.difference_update(filtered_ents)` keeps exactly the entities
that did NOT survive every filter, and that set becomes the section's new
entity list. -/
def entityFilterCleanup (fns : List (Entity → Bool)) (ents : List Entity) :
    List Entity :=
  let sectionEnts := dedupUid ents
  let filteredEnts := applyFilters fns sectionEnts
  sectionEnts.filter (fun e => !(filteredEnts.any (sameUid e)))

/-- `cleanup` over a whole document: each section's entity list is
replaced. -/
def cleanupDoc (fns : List (Entity → Bool)) (doc : Document) : Document :=
  { doc with
    sections := doc.sections.map
      (fun s => { s with entities := entityFilterCleanup fns s.entities }) }

/-!
## Auxiliary notions used by the statements below
-/

/-- Dict lookup in the synonym-term store: the first stored entry whose key
equals the probe's key. -/
def findTermEntry : List SynonymTermWithMetrics → SynonymTermWithMetrics →
    Option SynonymTermWithMetrics
  | [], _ => none
  | e :: rest, t => if keyEqv e t then some e else findTermEntry rest t

/-- The number of stored entries sharing the probe's key. -/
def keyCount : List SynonymTermWithMetrics → SynonymTermWithMetrics → Nat
  | [], _ => 0
  | e :: rest, t => (if keyEqv e t then 1 else 0) + keyCount rest t

/-- The store invariant a Python dict guarantees: no two entries share a
key. -/
def KeysDistinct : List SynonymTermWithMetrics → Prop
  | [] => True
  | e :: rest => (∀ x ∈ rest, ¬ keyEqv e x) ∧ KeysDistinct rest

instance decNotKeyEqvPred (e : SynonymTermWithMetrics) :
    DecidablePred (fun x => ¬ keyEqv e x) :=
  fun _ => inferInstance

instance KeysDistinct.dec : (l : List SynonymTermWithMetrics) →
    Decidable (KeysDistinct l)
  | [] => .isTrue True.intro
  | e :: rest =>
      haveI : Decidable (KeysDistinct rest) := KeysDistinct.dec rest
      inferInstanceAs (Decidable ((∀ x ∈ rest, ¬ keyEqv e x) ∧ KeysDistinct rest))

instance decEqExcept {ε α : Type} [DecidableEq ε] [DecidableEq α] :
    DecidableEq (Except ε α)
  | .ok a, .ok b =>
      if h : a = b then .isTrue (by rw [h])
      else .isFalse (by intro hc; cases hc; exact h rfl)
  | .ok _, .error _ => .isFalse (by intro hc; cases hc)
  | .error _, .ok _ => .isFalse (by intro hc; cases hc)
  | .error e, .error f =>
      if h : e = f then .isTrue (by rw [h])
      else .isFalse (by intro hc; cases hc; exact h rfl)

/-- Structural identity of entities in the sense of the serialization
contract: all constructor-supplied fields agree (`start`/`end`/`match_norm`
are derived, `uid` is object identity). -/
abbrev entEquiv (a b : Entity) : Prop :=
  a.match_ = b.match_ ∧ a.entity_class = b.entity_class ∧ a.spans = b.spans ∧
    a.namespace_ = b.namespace_ ∧ a.mention_confidence = b.mention_confidence ∧
    a.mappings = b.mappings ∧ a.metadata = b.metadata ∧
    a.syn_term_to_synonym_terms = b.syn_term_to_synonym_terms

/-- Structural identity of sections: same text, name, metadata, observable
sentence spans, and structurally identical entities in order. -/
abbrev sectionEquiv (a b : Section) : Prop :=
  a.text = b.text ∧ a.name = b.name ∧ a.metadata = b.metadata ∧
    a.sentenceSpans = b.sentenceSpans ∧ List.Forall₂ entEquiv a.entities b.entities

/-- Structural identity of documents. -/
abbrev docEquiv (a b : Document) : Prop :=
  a.idx = b.idx ∧ a.metadata = b.metadata ∧
    List.Forall₂ sectionEquiv a.sections b.sections

/-!
## Concrete values used by witnesses and counterexamples
-/

/-- A concrete stand-in for the external string normalizer. -/
def norm0 : String → String → String := fun s _ => s

/-- The C1 failing input: an active case-sensitive form whose confidence is
strictly stricter than the case-insensitive form of the same lowercased
string. -/
def ctConflict : CuratedTerm :=
  { original_forms := [⟨"Abc", true, .HIGHLY_LIKELY⟩, ⟨"abc", false, .POSSIBLE⟩],
    behaviour := .ADD_FOR_NER_AND_LINKING, alternative_forms := [] }

def mapX : Mapping :=
  { default_label := "Breast cancer", source := "MONDO", parser_name := "mondo",
    idx := "MONDO:0007254", string_match_strategy := "exact",
    string_match_confidence := .PROBABLE, disambiguation_confidence := none,
    disambiguation_strategy := none, xref_source_parser_name := none,
    metadata := [] }

def stwmW : SynonymTermWithMetrics :=
  { terms := ["breast cancer", "Breast Cancer"], term_norm := "BREAST CANCER",
    parser_name := "mondo", is_symbolic := false,
    associated_id_sets := [⟨[("MONDO:0007254", "MONDO")]⟩],
    aggregated_by := .UNAMBIGUOUS, mapping_types := ["exact"],
    search_score := some 80, embed_score := none, bool_score := none,
    exact_match := some true }

/-- Same full structural key as `stwmW` (including `mapping_types`), new
metric values. -/
def tW : SynonymTermWithMetrics :=
  { stwmW with search_score := none, embed_score := some 93, exact_match := none }

/-- Same five-field key as `stwmW` but different `mapping_types`. -/
def tOtherMT : SynonymTermWithMetrics :=
  { stwmW with mapping_types := [], search_score := some 5 }

/-- An entity with one mapping. -/
def entMapped : Entity :=
  { uid := 1, match_ := "breast cancer", entity_class := "disease",
    spans := [⟨16, 29⟩], namespace_ := "TransformersModelForTokenClassificationNerStep",
    mention_confidence := .HIGHLY_LIKELY, mappings := [mapX], metadata := [],
    start := 16, end_ := 29, match_norm := "breast cancer",
    syn_term_to_synonym_terms := [] }

/-- An identical-looking entity except for identity and mappings. -/
def entUnmapped : Entity :=
  { entMapped with uid := 2, mappings := [] }

/-- Two entities identical in every claim-relevant field, distinct in
identity only. -/
def entIdA : Entity :=
  { entMapped with uid := 10 }

def entIdB : Entity :=
  { entMapped with uid := 11 }

/-- The entity holding the C3 witness store. -/
def entW : Entity :=
  { entMapped with syn_term_to_synonym_terms := [stwmW] }

/-- The C8/C9 document: one section, one mapped and one unmapped entity. -/
def docW : Document :=
  { idx := "doc-1",
    sections := [{ text := "the patient has breast cancer", name := "abstract",
                   metadata := [],
                   entities := [entMapped, entUnmapped],
                   _sentence_spans := none }],
    metadata := [("source", "unit-test")] }

/-- The C6 counterexample entity: a successfully constructed entity whose
spans all end at negative offsets. -/
def entNeg : Entity :=
  { uid := 0, match_ := "x", entity_class := "c", spans := [⟨-2, -1⟩],
    namespace_ := "ns", mention_confidence := .HIGHLY_LIKELY, mappings := [],
    metadata := [], start := -2, end_ := 0, match_norm := "x",
    syn_term_to_synonym_terms := [] }

/-- The C6 witness entity over spans `[(0,3), (1,5)]`. -/
def entPos : Entity :=
  { uid := 0, match_ := "lung cancer", entity_class := "disease",
    spans := [⟨0, 3⟩, ⟨1, 5⟩], namespace_ := "ns",
    mention_confidence := .HIGHLY_LIKELY, mappings := [], metadata := [],
    start := 0, end_ := 5, match_norm := "lung cancer",
    syn_term_to_synonym_terms := [] }

def spanOuter : CharSpan := ⟨0, 10⟩

def spanInner : CharSpan := ⟨2, 3⟩

def mapAzOld : MappingAz := ⟨"kb", "IRI:1", "direct"⟩

def mapAzNew : MappingAz := ⟨"kb", "IRI:2", "direct"⟩

def cacheW : LookupCache := [(7, mapAzOld)]

/-!
## Helper lemmas
-/

theorem sameUid_self (e : Entity) : sameUid e e = true := by
  simp [sameUid]

theorem entityFilterCleanup_nil (l : List Entity) :
    entityFilterCleanup [] l = [] := by
  unfold entityFilterCleanup
  simp only [applyFilters, List.foldl_nil]
  rw [List.filter_eq_nil_iff]
  intro e he
  have h : (dedupUid l).any (sameUid e) = true :=
    List.any_eq_true.mpr ⟨e, he, sameUid_self e⟩
  simp [h]

theorem mem_dedupUid_subset {e : Entity} :
    ∀ {l : List Entity}, e ∈ dedupUid l → e ∈ l := by
  intro l
  induction l with
  | nil => simp [dedupUid]
  | cons a rest ih =>
      intro h
      rw [show dedupUid (a :: rest)
            = a :: (dedupUid rest).filter (fun x => !(sameUid a x)) from rfl] at h
      rcases List.mem_cons.mp h with rfl | h
      · exact List.mem_cons_self _ _
      · exact List.mem_cons_of_mem _ (ih (List.mem_filter.mp h).1)

theorem mem_dedupUid_full :
    ∀ {l : List Entity},
      (∀ a ∈ l, ∀ b ∈ l, a.uid = b.uid → a = b) →
      ∀ {e : Entity}, e ∈ l → e ∈ dedupUid l := by
  intro l
  induction l with
  | nil => intro _ e he; cases he
  | cons a rest ih =>
      intro hinj e he
      rw [show dedupUid (a :: rest)
            = a :: (dedupUid rest).filter (fun x => !(sameUid a x)) from rfl]
      rcases List.mem_cons.mp he with rfl | hr
      · exact List.mem_cons_self _ _
      · by_cases hsame : sameUid a e = true
        · have hae : a = e :=
            hinj a (List.mem_cons_self _ _) e (List.mem_cons_of_mem _ hr)
              (by simpa [sameUid] using hsame)
          exact hae ▸ List.mem_cons_self _ _
        · have hmem : e ∈ dedupUid rest :=
            ih (fun x hx y hy => hinj x (List.mem_cons_of_mem _ hx)
              y (List.mem_cons_of_mem _ hy)) hr
          exact List.mem_cons_of_mem _
            (List.mem_filter.mpr ⟨hmem, by simp [hsame]⟩)

theorem mem_applyFilters {e : Entity} :
    ∀ (fns : List (Entity → Bool)) (l : List Entity),
      (e ∈ applyFilters fns l ↔ e ∈ l ∧ ∀ f ∈ fns, f e = true) := by
  intro fns
  induction fns with
  | nil => intro l; simp [applyFilters]
  | cons f fns ih =>
      intro l
      rw [show applyFilters (f :: fns) l = applyFilters fns (l.filter f) from rfl, ih]
      simp only [List.mem_filter, List.forall_mem_cons, and_assoc]

theorem entityFilterCleanup_mem (fns : List (Entity → Bool)) (l : List Entity)
    (hinj : ∀ a ∈ l, ∀ b ∈ l, a.uid = b.uid → a = b) (e : Entity) :
    e ∈ entityFilterCleanup fns l ↔ e ∈ l ∧ ¬ (∀ f ∈ fns, f e = true) := by
  unfold entityFilterCleanup
  rw [List.mem_filter]
  constructor
  · rintro ⟨hd, hp⟩
    refine ⟨mem_dedupUid_subset hd, ?_⟩
    intro hall
    have hmem : e ∈ applyFilters fns (dedupUid l) :=
      (mem_applyFilters fns _).mpr ⟨hd, hall⟩
    have hany : (applyFilters fns (dedupUid l)).any (sameUid e) = true :=
      List.any_eq_true.mpr ⟨e, hmem, sameUid_self e⟩
    simp [hany] at hp
  · rintro ⟨hel, hnall⟩
    refine ⟨mem_dedupUid_full hinj hel, ?_⟩
    simp only [Bool.not_eq_true']
    rw [← Bool.not_eq_true]
    intro hany
    rcases List.any_eq_true.mp hany with ⟨x, hx, hsx⟩
    have hxl : x ∈ l := mem_dedupUid_subset ((mem_applyFilters fns _).mp hx).1
    have hex : e = x := hinj e hel x hxl (by simpa [sameUid] using hsx)
    exact hnall (hex ▸ ((mem_applyFilters fns _).mp hx).2)

/-!
## Claim theorems
-/

/-- C10: if the entity-filter cleanup action is built from an empty list of
filter functions, running cleanup on any Document leaves every Section's
entity list empty: the unreduced filter chain returns all entities, which
then form the removal set. -/
theorem C10_empty_filter_list_removes_all (doc : Document) :
    ((cleanupDoc [] doc).sections.all (fun s => s.entities.isEmpty)) = true := by
  rw [List.all_eq_true]
  intro s hs
  rcases List.mem_map.mp hs with ⟨s0, _, rfl⟩
  simp [entityFilterCleanup_nil]

/-- C2 counterexample: the claim that cleanup keeps exactly the entities
passing every predicate is false: with the single always-true predicate,
an entity passing every predicate is removed rather than kept. -/
theorem C2_counterexample :
    ¬ (∀ (fns : List (Entity → Bool)) (ents : List Entity) (e : Entity),
        e ∈ entityFilterCleanup fns ents ↔ e ∈ ents ∧ ∀ f ∈ fns, f e = true) := by
  intro hclaim
  have h := (hclaim [fun _ => true] [entIdA] entIdA).mpr ⟨by simp, by simp⟩
  have hnil : entityFilterCleanup [fun _ => true] [entIdA] = [] := rfl
  rw [hnil] at h
  exact absurd h (List.not_mem_nil _)

/-- C2 (amended): cleanup replaces each Section's entity list with exactly
those previous entities for which some predicate returned false; an entity
for which every predicate returned true is removed.  (The filter functions
select entities for removal, combined by intersection.) -/
theorem C2_cleanup_removes_intersection (fns : List (Entity → Bool)) (doc : Document)
    (hinj : ∀ s ∈ doc.sections, ∀ a ∈ s.entities, ∀ b ∈ s.entities,
      a.uid = b.uid → a = b) :
    List.Forall₂
      (fun s' s => s'.text = s.text ∧ s'.name = s.name ∧
        ∀ e : Entity, e ∈ s'.entities ↔
          e ∈ s.entities ∧ ¬ (∀ f ∈ fns, f e = true))
      (cleanupDoc fns doc).sections doc.sections := by
  rw [show (cleanupDoc fns doc).sections = doc.sections.map
        (fun s => { s with entities := entityFilterCleanup fns s.entities }) from rfl]
  have aux : ∀ (L : List Section),
      (∀ s ∈ L, ∀ a ∈ s.entities, ∀ b ∈ s.entities, a.uid = b.uid → a = b) →
      List.Forall₂
        (fun s' s => s'.text = s.text ∧ s'.name = s.name ∧
          ∀ e : Entity, e ∈ s'.entities ↔
            e ∈ s.entities ∧ ¬ (∀ f ∈ fns, f e = true))
        (L.map (fun s => { s with entities := entityFilterCleanup fns s.entities })) L := by
    intro L
    induction L with
    | nil => intro _; exact List.Forall₂.nil
    | cons s rest ih =>
        intro hL
        refine List.Forall₂.cons ⟨rfl, rfl, ?_⟩
          (ih (fun x hx => hL x (List.mem_cons_of_mem _ hx)))
        exact entityFilterCleanup_mem fns s.entities
          (hL s (List.mem_cons_self _ _))
  exact aux doc.sections hinj

/-- C2 witness for the amended claim: a section with a mapped and an
unmapped entity and the drop-unmapped predicate; the unmapped entity (which
passes the predicate) is removed, the mapped one survives. -/
theorem C2_witness :
    (∀ s ∈ docW.sections, ∀ a ∈ s.entities, ∀ b ∈ s.entities,
        a.uid = b.uid → a = b) ∧
    List.Forall₂
      (fun s' s => s'.text = s.text ∧ s'.name = s.name ∧
        ∀ e : Entity, e ∈ s'.entities ↔
          e ∈ s.entities ∧
            ¬ (∀ f ∈ [fun (ent : Entity) => ent.mappings.isEmpty], f e = true))
      (cleanupDoc [fun (ent : Entity) => ent.mappings.isEmpty] docW).sections
      docW.sections :=
  ⟨by decide, C2_cleanup_removes_intersection _ docW (by decide)⟩

/-- C7 counterexample: for a span strictly containing another, none of the
inner span's endpoints fall inside the outer one, so the method returns
false even though an endpoint of the inner span falls within the outer
span's inclusive range (one of the claim's four disjuncts); swapping the
arguments returns true, so the predicate is not symmetric. -/
theorem C7_counterexample :
    CharSpan.isPartiallyOverlapped spanOuter spanInner = false ∧
    (spanOuter.start ≤ spanInner.start ∧ spanInner.start ≤ spanOuter.end_) ∧
    CharSpan.isPartiallyOverlapped spanInner spanOuter = true := by
  decide

/-- C7 (amended): `a.is_partially_overlapped(b)` is true iff either
endpoint of `a` falls within the inclusive range `[b.start, b.end]`; the
reverse two disjuncts of the claim are absent, so the predicate is
directional, not symmetric. -/
theorem C7_partial_overlap_amended (a b : CharSpan) :
    a.isPartiallyOverlapped b = true ↔
      ((b.start ≤ a.start ∧ a.start ≤ b.end_) ∨
        (b.start ≤ a.end_ ∧ a.end_ ≤ b.end_)) := by
  simp [CharSpan.isPartiallyOverlapped]

/-- C4: the lookup cache is first-writer-wins: inserting a mapping for a
key already present leaves the cache — and hence the stored mapping —
unchanged. -/
theorem C4_first_writer_wins (cache : LookupCache) (k : Nat) (m0 m1 : MappingAz)
    (h : cacheLookup cache k = some m0) :
    updateLookupCache cache k m1 = cache ∧
    cacheLookup (updateLookupCache cache k m1) k = some m0 := by
  have hs : (cacheLookup cache k).isSome = true := by rw [h]; rfl
  refine ⟨?_, ?_⟩ <;> simp [updateLookupCache, hs, h]

theorem C4_witness :
    cacheLookup cacheW 7 = some mapAzOld ∧
      (updateLookupCache cacheW 7 mapAzNew = cacheW ∧
        cacheLookup (updateLookupCache cacheW 7 mapAzNew) 7 = some mapAzOld) :=
  ⟨rfl, C4_first_writer_wins cacheW 7 mapAzOld mapAzNew rfl⟩

/-- C5: entity equality and hashing go by identity: `a == b` iff same
object; two entities with identical match/spans/class/namespace but
distinct identities are unequal, hash differently, and a set holding both
has size 2. -/
theorem C5_identity_semantics (a b : Entity) :
    (entityEq a b = true ↔ a.uid = b.uid) ∧
    (a.match_ = b.match_ → a.spans = b.spans → a.entity_class = b.entity_class →
      a.namespace_ = b.namespace_ → a.uid ≠ b.uid →
      entityEq a b = false ∧ entityHash a ≠ entityHash b ∧
        (dedupUid [a, b]).length = 2) := by
  constructor
  · simp [entityEq]
  · intro _ _ _ _ h5
    refine ⟨?_, ?_, ?_⟩
    · simp [entityEq, h5]
    · simpa [entityHash] using h5
    · simp [dedupUid, sameUid, h5]

theorem C5_witness :
    entIdA.match_ = entIdB.match_ ∧ entIdA.spans = entIdB.spans ∧
    entIdA.entity_class = entIdB.entity_class ∧
    entIdA.namespace_ = entIdB.namespace_ ∧ entIdA.uid ≠ entIdB.uid ∧
    (entityEq entIdA entIdB = false ∧ entityHash entIdA ≠ entityHash entIdB ∧
      (dedupUid [entIdA, entIdB]).length = 2) :=
  ⟨rfl, rfl, rfl, rfl, by decide,
    (C5_identity_semantics entIdA entIdB).2 rfl rfl rfl rfl (by decide)⟩

/-- C1: the conflict check of `CuratedTerm.__post_init__` cannot fire: the
loop iterates the case-insensitive groups and compares each against itself
(`cs_forms` is built but never read), so construction succeeds even on the
claim's conflict scenario — the case-insensitive minimum (POSSIBLE) for
the lowercased string "abc" is strictly laxer than the case-sensitive
minimum (HIGHLY_LIKELY) for "Abc". -/
theorem C1_conflict_check_never_fires :
    curatedTermPostInit ctConflict = Except.ok () ∧
    lookupGroup (ciForms (activeNerForms ctConflict)) "abc"
        = some [MentionConfidence.POSSIBLE] ∧
    lookupGroup (csForms (activeNerForms ctConflict)) "Abc"
        = some [MentionConfidence.HIGHLY_LIKELY] ∧
    minConfVal [MentionConfidence.POSSIBLE]
        < minConfVal [MentionConfidence.HIGHLY_LIKELY] := by
  refine ⟨by decide, by decide, by decide, by decide⟩

/-- C8: on the structural record of a document containing an unmapped
entity, the converter omits the empty `mappings` field, so
`minify_json_dict` with `drop_unmapped_ents=True` raises `KeyError`
("mappings") instead of dropping the entity; likewise `drop_terms=True`
raises `KeyError` ("synonym_terms") when an entity has no synonym terms. -/
theorem C8_minify_raises_keyerror :
    asMinifiedDict docW true false = Except.error "mappings" ∧
    asMinifiedDict docW false true = Except.error "synonym_terms" ∧
    entMapped.mappings ≠ [] ∧ entUnmapped.mappings = [] :=
  ⟨rfl, rfl, by decide, rfl⟩

/-!
## Key-equivalence lemmas for the synonym-term store (C3)
-/

theorem setEqv_refl {α : Type} [DecidableEq α] (a : List α) : setEqv a a :=
  ⟨fun _ hx => hx, fun _ hx => hx⟩

theorem setEqv_symm {α : Type} [DecidableEq α] {a b : List α}
    (h : setEqv a b) : setEqv b a :=
  ⟨h.2, h.1⟩

theorem setEqv_trans {α : Type} [DecidableEq α] {a b c : List α}
    (h1 : setEqv a b) (h2 : setEqv b c) : setEqv a c :=
  ⟨fun x hx => h2.1 x (h1.1 x hx), fun x hx => h1.2 x (h2.2 x hx)⟩

theorem assocEqv_refl (A : List EquivalentIdSet) : assocEqv A A :=
  ⟨fun s hs => ⟨s, hs, setEqv_refl _⟩, fun s hs => ⟨s, hs, setEqv_refl _⟩⟩

theorem assocEqv_symm {A B : List EquivalentIdSet} (h : assocEqv A B) :
    assocEqv B A :=
  ⟨fun t ht => (h.2 t ht).imp (fun _ ⟨hs, he⟩ => ⟨hs, setEqv_symm he⟩),
   fun s hs => (h.1 s hs).imp (fun _ ⟨ht, he⟩ => ⟨ht, setEqv_symm he⟩)⟩

theorem assocEqv_trans {A B C : List EquivalentIdSet}
    (h1 : assocEqv A B) (h2 : assocEqv B C) : assocEqv A C := by
  constructor
  · intro s hs
    obtain ⟨t, ht, he⟩ := h1.1 s hs
    obtain ⟨u, hu, he'⟩ := h2.1 t ht
    exact ⟨u, hu, setEqv_trans he he'⟩
  · intro u hu
    obtain ⟨t, ht, he⟩ := h2.2 u hu
    obtain ⟨s, hs, he'⟩ := h1.2 t ht
    exact ⟨s, hs, setEqv_trans he' he⟩

theorem keyEqv_refl (t : SynonymTermWithMetrics) : keyEqv t t :=
  ⟨setEqv_refl _, rfl, rfl, rfl, assocEqv_refl _, setEqv_refl _⟩

theorem keyEqv_symm {a b : SynonymTermWithMetrics} (h : keyEqv a b) : keyEqv b a :=
  ⟨setEqv_symm h.1, h.2.1.symm, h.2.2.1.symm, h.2.2.2.1.symm,
   assocEqv_symm h.2.2.2.2.1, setEqv_symm h.2.2.2.2.2⟩

theorem keyEqv_trans {a b c : SynonymTermWithMetrics}
    (h1 : keyEqv a b) (h2 : keyEqv b c) : keyEqv a c :=
  ⟨setEqv_trans h1.1 h2.1, h1.2.1.trans h2.2.1, h1.2.2.1.trans h2.2.2.1,
   h1.2.2.2.1.trans h2.2.2.2.1, assocEqv_trans h1.2.2.2.2.1 h2.2.2.2.2.1,
   setEqv_trans h1.2.2.2.2.2 h2.2.2.2.2.2⟩

/-- Merging metrics leaves every key field unchanged. -/
theorem keyEqv_merge_left (e t u : SynonymTermWithMetrics) :
    keyEqv (mergeMetrics e t) u ↔ keyEqv e u :=
  Iff.rfl

theorem keyEqv_merge_right (u e t : SynonymTermWithMetrics) :
    keyEqv u (mergeMetrics e t) ↔ keyEqv u e :=
  Iff.rfl

/-!
## `updateTerm` lemmas (C3)
-/

theorem updateTerm_not_found (t : SynonymTermWithMetrics) :
    ∀ (store : List SynonymTermWithMetrics),
      (∀ e ∈ store, ¬ keyEqv e t) → updateTerm store t = store ++ [t] := by
  intro store
  induction store with
  | nil => intro _; rfl
  | cons a rest ih =>
      intro h
      rw [show updateTerm (a :: rest) t
            = if keyEqv a t then mergeMetrics a t :: rest
              else a :: updateTerm rest t from rfl,
          if_neg (h a (List.mem_cons_self _ _)),
          ih (fun e he => h e (List.mem_cons_of_mem _ he))]
      rfl

theorem mem_updateTerm {x t : SynonymTermWithMetrics} :
    ∀ {store : List SynonymTermWithMetrics}, x ∈ updateTerm store t →
      x ∈ store ∨ x = t ∨ ∃ e ∈ store, keyEqv e t ∧ x = mergeMetrics e t := by
  intro store
  induction store with
  | nil =>
      intro h
      rcases List.mem_singleton.mp h with rfl
      exact Or.inr (Or.inl rfl)
  | cons a rest ih =>
      intro h
      rw [show updateTerm (a :: rest) t
            = if keyEqv a t then mergeMetrics a t :: rest
              else a :: updateTerm rest t from rfl] at h
      by_cases hk : keyEqv a t
      · rw [if_pos hk] at h
        rcases List.mem_cons.mp h with rfl | hr
        · exact Or.inr (Or.inr ⟨a, List.mem_cons_self _ _, hk, rfl⟩)
        · exact Or.inl (List.mem_cons_of_mem _ hr)
      · rw [if_neg hk] at h
        rcases List.mem_cons.mp h with rfl | hr
        · exact Or.inl (List.mem_cons_self _ _)
        · rcases ih hr with hx | hx | ⟨e, he, hke, hxe⟩
          · exact Or.inl (List.mem_cons_of_mem _ hx)
          · exact Or.inr (Or.inl hx)
          · exact Or.inr (Or.inr ⟨e, List.mem_cons_of_mem _ he, hke, hxe⟩)

theorem keysDistinct_append {t : SynonymTermWithMetrics} :
    ∀ {store : List SynonymTermWithMetrics}, KeysDistinct store →
      (∀ e ∈ store, ¬ keyEqv e t) → KeysDistinct (store ++ [t]) := by
  intro store
  induction store with
  | nil =>
      intro _ _
      exact ⟨fun x hx => absurd hx (List.not_mem_nil x), True.intro⟩
  | cons a rest ih =>
      intro hd hn
      refine ⟨?_, ih hd.2 (fun e he => hn e (List.mem_cons_of_mem _ he))⟩
      intro x hx
      rcases List.mem_append.mp hx with hx | hx
      · exact hd.1 x hx
      · rcases List.mem_singleton.mp hx with rfl
        exact hn a (List.mem_cons_self _ _)

theorem updateTerm_found {t : SynonymTermWithMetrics} :
    ∀ {store : List SynonymTermWithMetrics}, KeysDistinct store →
      ∀ {e}, e ∈ store → keyEqv e t →
        findTermEntry (updateTerm store t) t = some (mergeMetrics e t) ∧
        keyCount (updateTerm store t) t = 1 ∧
        KeysDistinct (updateTerm store t) := by
  intro store
  induction store with
  | nil => intro _ e he; cases he
  | cons a rest ih =>
      intro hd e he hket
      rw [show updateTerm (a :: rest) t
            = if keyEqv a t then mergeMetrics a t :: rest
              else a :: updateTerm rest t from rfl]
      rcases List.mem_cons.mp he with rfl | hr
      · rw [if_pos hket]
        have hrest : ∀ x ∈ rest, ¬ keyEqv x t := by
          intro x hx hxk
          exact hd.1 x hx (keyEqv_trans hket (keyEqv_symm hxk))
        have hrestCount : ∀ (l : List SynonymTermWithMetrics),
            (∀ x ∈ l, ¬ keyEqv x t) → keyCount l t = 0 := by
          intro l
          induction l with
          | nil => intro _; rfl
          | cons b bs ihb =>
              intro hl
              rw [show keyCount (b :: bs) t
                    = (if keyEqv b t then 1 else 0) + keyCount bs t from rfl,
                  if_neg (hl b (List.mem_cons_self _ _)),
                  ihb (fun x hx => hl x (List.mem_cons_of_mem _ hx))]
        have hrestFind : ∀ (l : List SynonymTermWithMetrics),
            (∀ x ∈ l, ¬ keyEqv x t) → findTermEntry l t = none := by
          intro l
          induction l with
          | nil => intro _; rfl
          | cons b bs ihb =>
              intro hl
              rw [show findTermEntry (b :: bs) t
                    = if keyEqv b t then some b else findTermEntry bs t from rfl,
                  if_neg (hl b (List.mem_cons_self _ _)),
                  ihb (fun x hx => hl x (List.mem_cons_of_mem _ hx))]
        refine ⟨?_, ?_, ?_⟩
        · rw [show findTermEntry (mergeMetrics e t :: rest) t
                = if keyEqv (mergeMetrics e t) t then some (mergeMetrics e t)
                  else findTermEntry rest t from rfl,
              if_pos ((keyEqv_merge_left e t t).mpr hket)]
        · rw [show keyCount (mergeMetrics e t :: rest) t
                = (if keyEqv (mergeMetrics e t) t then 1 else 0) + keyCount rest t from rfl,
              if_pos ((keyEqv_merge_left e t t).mpr hket), hrestCount rest hrest]
        · exact ⟨fun x hx hk => hd.1 x hx ((keyEqv_merge_left e t x).mp hk), hd.2⟩
      · have hat : ¬ keyEqv a t := by
          intro hak
          exact hd.1 e hr (keyEqv_trans hak (keyEqv_symm hket))
        rw [if_neg hat]
        obtain ⟨hfind, hcount, hdist⟩ := ih hd.2 hr hket
        refine ⟨?_, ?_, ?_⟩
        · rw [show findTermEntry (a :: updateTerm rest t) t
                = if keyEqv a t then some a else findTermEntry (updateTerm rest t) t
                from rfl,
              if_neg hat]
          exact hfind
        · rw [show keyCount (a :: updateTerm rest t) t
                = (if keyEqv a t then 1 else 0) + keyCount (updateTerm rest t) t
                from rfl,
              if_neg hat, hcount]
        · refine ⟨?_, hdist⟩
          intro x hx
          rcases mem_updateTerm hx with hxm | rfl | ⟨e', he', hke', rfl⟩
          · exact hd.1 x hxm
          · exact hat
          · intro hk
            exact hd.1 e' he' ((keyEqv_merge_right a e' t).mp hk)

theorem keyCount_of_none {t : SynonymTermWithMetrics} :
    ∀ {l : List SynonymTermWithMetrics},
      (∀ x ∈ l, ¬ keyEqv x t) → keyCount l t = 0 := by
  intro l
  induction l with
  | nil => intro _; rfl
  | cons b bs ihb =>
      intro hl
      rw [show keyCount (b :: bs) t
            = (if keyEqv b t then 1 else 0) + keyCount bs t from rfl,
          if_neg (hl b (List.mem_cons_self _ _)),
          ihb (fun x hx => hl x (List.mem_cons_of_mem _ hx))]

theorem keyCount_append_self {t : SynonymTermWithMetrics} :
    ∀ {l : List SynonymTermWithMetrics},
      (∀ x ∈ l, ¬ keyEqv x t) → keyCount (l ++ [t]) t = 1 := by
  intro l
  induction l with
  | nil =>
      intro _
      rw [show keyCount ([] ++ [t]) t
            = (if keyEqv t t then 1 else 0) + keyCount [] t from rfl,
          if_pos (keyEqv_refl t)]
      rfl
  | cons b bs ihb =>
      intro hl
      rw [show keyCount ((b :: bs) ++ [t]) t
            = (if keyEqv b t then 1 else 0) + keyCount (bs ++ [t]) t from rfl,
          if_neg (hl b (List.mem_cons_self _ _)),
          ihb (fun x hx => hl x (List.mem_cons_of_mem _ hx))]

/-- C3 (amended): `update_terms` merges on the dict's actual structural key
— which is the five claimed fields PLUS `mapping_types` (declared
`hash=False` but not `compare=False`, so it participates in `==`).  With
that key: an existing entry is replaced by the merge, whose four metric
fields take the incoming value when non-null and otherwise keep the
existing one; an unmatched term is appended unchanged; the store keeps
exactly one entry per key. -/
theorem C3_update_terms_amended (ent : Entity) (t : SynonymTermWithMetrics)
    (h : KeysDistinct ent.syn_term_to_synonym_terms) :
    (Entity.update_terms ent [t]).syn_term_to_synonym_terms
        = updateTerm ent.syn_term_to_synonym_terms t ∧
    ((∀ e ∈ ent.syn_term_to_synonym_terms, ¬ keyEqv e t) →
      updateTerm ent.syn_term_to_synonym_terms t
        = ent.syn_term_to_synonym_terms ++ [t]) ∧
    (∀ e ∈ ent.syn_term_to_synonym_terms, keyEqv e t →
      findTermEntry (updateTerm ent.syn_term_to_synonym_terms t) t
          = some (mergeMetrics e t) ∧
      (mergeMetrics e t).search_score
          = (match t.search_score with | some v => some v | none => e.search_score) ∧
      (mergeMetrics e t).embed_score
          = (match t.embed_score with | some v => some v | none => e.embed_score) ∧
      (mergeMetrics e t).bool_score
          = (match t.bool_score with | some v => some v | none => e.bool_score) ∧
      (mergeMetrics e t).exact_match
          = (match t.exact_match with | some v => some v | none => e.exact_match) ∧
      keyCount (updateTerm ent.syn_term_to_synonym_terms t) t = 1) ∧
    keyCount (updateTerm ent.syn_term_to_synonym_terms t) t = 1 ∧
    KeysDistinct (updateTerm ent.syn_term_to_synonym_terms t) := by
  refine ⟨rfl, updateTerm_not_found t _, ?_, ?_, ?_⟩
  · intro e he hke
    obtain ⟨hfind, hcount, _⟩ := updateTerm_found h he hke
    exact ⟨hfind, rfl, rfl, rfl, rfl, hcount⟩
  · by_cases hex : ∃ e ∈ ent.syn_term_to_synonym_terms, keyEqv e t
    · obtain ⟨e, he, hke⟩ := hex
      exact (updateTerm_found h he hke).2.1
    · push_neg at hex
      rw [updateTerm_not_found t _ hex]
      exact keyCount_append_self hex
  · by_cases hex : ∃ e ∈ ent.syn_term_to_synonym_terms, keyEqv e t
    · obtain ⟨e, he, hke⟩ := hex
      exact (updateTerm_found h he hke).2.2
    · push_neg at hex
      rw [updateTerm_not_found t _ hex]
      exact keysDistinct_append h hex

/-- C3 counterexample: two terms agreeing on all five claimed key fields
but differing in `mapping_types` are distinct dict keys: the incoming term
is inserted alongside the stored one instead of being merged into it, so
the claimed key (terms, term_norm, parser_name, is_symbolic,
associated_id_sets) is not the store's key. -/
theorem C3_counterexample :
    (updateTerm [stwmW] tOtherMT).length = 2 ∧
    stwmW.terms = tOtherMT.terms ∧ stwmW.term_norm = tOtherMT.term_norm ∧
    stwmW.parser_name = tOtherMT.parser_name ∧
    stwmW.is_symbolic = tOtherMT.is_symbolic ∧
    stwmW.associated_id_sets = tOtherMT.associated_id_sets ∧
    ¬ keyEqv stwmW tOtherMT := by
  refine ⟨by decide, rfl, rfl, rfl, rfl, rfl, by decide⟩

theorem C3_witness :
    KeysDistinct entW.syn_term_to_synonym_terms ∧ keyEqv stwmW tW ∧
    (findTermEntry (updateTerm entW.syn_term_to_synonym_terms tW) tW
        = some (mergeMetrics stwmW tW) ∧
      (mergeMetrics stwmW tW).search_score
          = (match tW.search_score with | some v => some v | none => stwmW.search_score) ∧
      (mergeMetrics stwmW tW).embed_score
          = (match tW.embed_score with | some v => some v | none => stwmW.embed_score) ∧
      (mergeMetrics stwmW tW).bool_score
          = (match tW.bool_score with | some v => some v | none => stwmW.bool_score) ∧
      (mergeMetrics stwmW tW).exact_match
          = (match tW.exact_match with | some v => some v | none => stwmW.exact_match) ∧
      keyCount (updateTerm entW.syn_term_to_synonym_terms tW) tW = 1) :=
  ⟨by decide, by decide,
    (C3_update_terms_amended entW tW (by decide)).2.2.1 stwmW (by decide) (by decide)⟩

/-!
## `calc_starts_and_ends` lemmas (C6)
-/

theorem earliestFold_some :
    ∀ (l : List CharSpan) (v : Int),
      ∃ w, l.foldl earliestStep (some v) = some w ∧
        (w = v ∨ ∃ sp ∈ l, w = sp.start) ∧ w ≤ v ∧ ∀ sp ∈ l, w ≤ sp.start := by
  intro l
  induction l with
  | nil =>
      intro v
      exact ⟨v, rfl, Or.inl rfl, le_refl v, fun sp hsp => absurd hsp (List.not_mem_nil sp)⟩
  | cons sp l ih =>
      intro v
      by_cases hlt : sp.start < v
      · have hstep : List.foldl earliestStep (some v) (sp :: l)
            = List.foldl earliestStep (some sp.start) l := by
          rw [show List.foldl earliestStep (some v) (sp :: l)
                = List.foldl earliestStep (earliestStep (some v) sp) l from rfl,
              show earliestStep (some v) sp
                = if sp.start < v then some sp.start else some v from rfl,
              if_pos hlt]
        obtain ⟨w, heq, hcase, hle, hall⟩ := ih sp.start
        refine ⟨w, hstep.trans heq, ?_, hle.trans (le_of_lt hlt), ?_⟩
        · rcases hcase with rfl | ⟨sp', hsp', rfl⟩
          · exact Or.inr ⟨sp, List.mem_cons_self _ _, rfl⟩
          · exact Or.inr ⟨sp', List.mem_cons_of_mem _ hsp', rfl⟩
        · intro sp' hsp'
          rcases List.mem_cons.mp hsp' with rfl | hsp'
          · exact hle
          · exact hall sp' hsp'
      · have hstep : List.foldl earliestStep (some v) (sp :: l)
            = List.foldl earliestStep (some v) l := by
          rw [show List.foldl earliestStep (some v) (sp :: l)
                = List.foldl earliestStep (earliestStep (some v) sp) l from rfl,
              show earliestStep (some v) sp
                = if sp.start < v then some sp.start else some v from rfl,
              if_neg hlt]
        obtain ⟨w, heq, hcase, hle, hall⟩ := ih v
        refine ⟨w, hstep.trans heq, ?_, hle, ?_⟩
        · rcases hcase with rfl | ⟨sp', hsp', rfl⟩
          · exact Or.inl rfl
          · exact Or.inr ⟨sp', List.mem_cons_of_mem _ hsp', rfl⟩
        · intro sp' hsp'
          rcases List.mem_cons.mp hsp' with rfl | hsp'
          · exact hle.trans (le_of_not_lt hlt)
          · exact hall sp' hsp'

theorem latestFold_spec :
    ∀ (l : List CharSpan) (c : Int),
      c ≤ l.foldl latestStep c ∧ (∀ sp ∈ l, sp.end_ ≤ l.foldl latestStep c) ∧
        (l.foldl latestStep c = c ∨ ∃ sp ∈ l, l.foldl latestStep c = sp.end_) := by
  intro l
  induction l with
  | nil =>
      intro c
      exact ⟨le_refl c, fun sp hsp => absurd hsp (List.not_mem_nil sp), Or.inl rfl⟩
  | cons sp l ih =>
      intro c
      have hstep : List.foldl latestStep c (sp :: l)
          = List.foldl latestStep (latestStep c sp) l := rfl
      obtain ⟨hc, hall, hcase⟩ := ih (latestStep c sp)
      have hcs : c ≤ latestStep c sp := by
        rw [show latestStep c sp = if sp.end_ > c then sp.end_ else c from rfl]
        by_cases hgt : sp.end_ > c
        · rw [if_pos hgt]; exact le_of_lt hgt
        · rw [if_neg hgt]
      have hsps : sp.end_ ≤ latestStep c sp := by
        rw [show latestStep c sp = if sp.end_ > c then sp.end_ else c from rfl]
        by_cases hgt : sp.end_ > c
        · rw [if_pos hgt]
        · rw [if_neg hgt]; exact le_of_not_lt hgt
      refine ⟨hstep ▸ hcs.trans hc, ?_, ?_⟩
      · intro sp' hsp'
        rcases List.mem_cons.mp hsp' with rfl | hsp'
        · exact hstep ▸ hsps.trans hc
        · exact hstep ▸ hall sp' hsp'
      · rw [hstep]
        rcases hcase with heq | ⟨sp', hsp', heq⟩
        · rw [heq]
          rw [show latestStep c sp = if sp.end_ > c then sp.end_ else c from rfl]
          by_cases hgt : sp.end_ > c
          · rw [if_pos hgt]
            exact Or.inr ⟨sp, List.mem_cons_self _ _, rfl⟩
          · rw [if_neg hgt]
            exact Or.inl rfl
        · exact Or.inr ⟨sp', List.mem_cons_of_mem _ hsp', heq⟩

theorem calcStartsAndEnds_nil :
    calcStartsAndEnds [] = .error "spans are not valid" := rfl

theorem calcStartsAndEnds_ok (spans : List CharSpan) (st en : Int)
    (h : calcStartsAndEnds spans = .ok (st, en)) :
    (∃ sp ∈ spans, st = sp.start) ∧ (∀ sp ∈ spans, st ≤ sp.start) ∧
    0 ≤ en ∧ (∀ sp ∈ spans, sp.end_ ≤ en) ∧
    (en = 0 ∨ ∃ sp ∈ spans, en = sp.end_) := by
  cases spans with
  | nil => cases h
  | cons sp l =>
      obtain ⟨w, heq, hcase, hle, hall⟩ := earliestFold_some l sp.start
      obtain ⟨hc, hallend, hcaseend⟩ := latestFold_spec (sp :: l) 0
      have hfold : List.foldl earliestStep none (sp :: l)
          = List.foldl earliestStep (some sp.start) l := rfl
      unfold calcStartsAndEnds at h
      rw [hfold, heq] at h
      have hst : st = w ∧ en = List.foldl latestStep 0 (sp :: l) := by
        have := h
        simp only at this
        exact ⟨(Prod.mk.injEq _ _ _ _).mp (Except.ok.inj this) |>.1.symm,
               (Prod.mk.injEq _ _ _ _).mp (Except.ok.inj this) |>.2.symm⟩
      obtain ⟨rfl, rfl⟩ := hst
      refine ⟨?_, ?_, hc, hallend, hcaseend⟩
      · rcases hcase with rfl | ⟨sp', hsp', rfl⟩
        · exact ⟨sp, List.mem_cons_self _ _, rfl⟩
        · exact ⟨sp', List.mem_cons_of_mem _ hsp', rfl⟩
      · intro sp' hsp'
        rcases List.mem_cons.mp hsp' with rfl | hsp'
        · exact hle
        · exact hall sp' hsp'

theorem calcStartsAndEnds_ok_of_ne_nil (spans : List CharSpan)
    (h : spans ≠ []) : ∃ p, calcStartsAndEnds spans = .ok p := by
  cases spans with
  | nil => exact absurd rfl h
  | cons sp l =>
      obtain ⟨w, heq, -, -, -⟩ := earliestFold_some l sp.start
      refine ⟨(w, List.foldl latestStep 0 (sp :: l)), ?_⟩
      unfold calcStartsAndEnds
      rw [show List.foldl earliestStep none (sp :: l)
            = List.foldl earliestStep (some sp.start) l from rfl, heq]

/-- C6 (amended): for every successfully constructed Entity, `start` is the
minimum span start (attained and a lower bound), while `end` is the
maximum of the span ends AND 0: `latest_end` is initialised to 0, so `end`
is non-negative, bounds every span end, and is either 0 or an attained
span end.  Construction with an empty span set fails with the
`spans are not valid` error. -/
theorem C6_start_end_amended (normalize : String → String → String) (uid : Nat)
    (match_ entity_class : String) (spans : List CharSpan) (namespace_ : String)
    (mc : MentionConfidence) (mappings : List Mapping) (metadata : Metadata)
    (syns : List SynonymTermWithMetrics) :
    (spans = [] →
      mkEntity normalize uid match_ entity_class spans namespace_ mc mappings
          metadata syns = .error "spans are not valid") ∧
    (spans ≠ [] →
      ∃ e, mkEntity normalize uid match_ entity_class spans namespace_ mc mappings
          metadata syns = .ok e) ∧
    (∀ e, mkEntity normalize uid match_ entity_class spans namespace_ mc mappings
          metadata syns = .ok e →
      (∃ sp ∈ spans, e.start = sp.start) ∧ (∀ sp ∈ spans, e.start ≤ sp.start) ∧
      0 ≤ e.end_ ∧ (∀ sp ∈ spans, sp.end_ ≤ e.end_) ∧
      (e.end_ = 0 ∨ ∃ sp ∈ spans, e.end_ = sp.end_)) := by
  refine ⟨?_, ?_, ?_⟩
  · rintro rfl
    rfl
  · intro hne
    obtain ⟨⟨st, en⟩, hp⟩ := calcStartsAndEnds_ok_of_ne_nil spans hne
    refine ⟨{ uid := uid, match_ := match_, entity_class := entity_class,
              spans := spans, namespace_ := namespace_,
              mention_confidence := mc, mappings := mappings,
              metadata := metadata, start := st, end_ := en,
              match_norm := normalize match_ entity_class,
              syn_term_to_synonym_terms := syns }, ?_⟩
    unfold mkEntity
    rw [hp]
  · intro e he
    unfold mkEntity at he
    cases hc : calcStartsAndEnds spans with
    | error msg => rw [hc] at he; cases he
    | ok p =>
        obtain ⟨st, en⟩ := p
        rw [hc] at he
        have hfields : e.start = st ∧ e.end_ = en := by
          cases Except.ok.inj he
          exact ⟨rfl, rfl⟩
        obtain ⟨h1, h2⟩ := hfields
        rw [h1, h2]
        exact calcStartsAndEnds_ok spans st en hc

/-- C6 counterexample: the entity over the single span `(-2, -1)` is
successfully constructed with `end = 0`, while the maximum span end is
`-1`: `end` is not the maximum of the span ends. -/
theorem C6_counterexample :
    mkEntity norm0 0 "x" "c" [⟨-2, -1⟩] "ns" .HIGHLY_LIKELY [] [] [] = .ok entNeg ∧
    entNeg.end_ = 0 ∧ (∀ sp ∈ [(⟨-2, -1⟩ : CharSpan)], sp.end_ = -1) := by
  refine ⟨by decide, rfl, by decide⟩

theorem C6_witness :
    mkEntity norm0 0 "lung cancer" "disease" [] "ns" .HIGHLY_LIKELY [] [] []
        = .error "spans are not valid" ∧
    mkEntity norm0 0 "lung cancer" "disease" [⟨0, 3⟩, ⟨1, 5⟩] "ns"
        .HIGHLY_LIKELY [] [] [] = .ok entPos ∧
    ((∃ sp ∈ [(⟨0, 3⟩ : CharSpan), ⟨1, 5⟩], entPos.start = sp.start) ∧
      (∀ sp ∈ [(⟨0, 3⟩ : CharSpan), ⟨1, 5⟩], entPos.start ≤ sp.start) ∧
      0 ≤ entPos.end_ ∧
      (∀ sp ∈ [(⟨0, 3⟩ : CharSpan), ⟨1, 5⟩], sp.end_ ≤ entPos.end_) ∧
      (entPos.end_ = 0 ∨ ∃ sp ∈ [(⟨0, 3⟩ : CharSpan), ⟨1, 5⟩], entPos.end_ = sp.end_)) :=
  ⟨(C6_start_end_amended norm0 0 "lung cancer" "disease" [] "ns"
      .HIGHLY_LIKELY [] [] []).1 rfl,
   by decide,
   (C6_start_end_amended norm0 0 "lung cancer" "disease" [⟨0, 3⟩, ⟨1, 5⟩] "ns"
      .HIGHLY_LIKELY [] [] []).2.2 entPos (by decide)⟩

/-!
## Serialization round-trip lemmas (C9)
-/

theorem smc_ofValue_value (c : StringMatchConfidence) :
    StringMatchConfidence.ofValue c.value = some c := by
  cases c <;> rfl

theorem dc_ofValue_value (c : DisambiguationConfidence) :
    DisambiguationConfidence.ofValue c.value = some c := by
  cases c <;> rfl

theorem agg_ofValue_value (c : EquivalentIdAggregationStrategy) :
    EquivalentIdAggregationStrategy.ofValue c.value = some c := by
  cases c <;> rfl

theorem mc_fromName_name (c : MentionConfidence) :
    MentionConfidence.fromName c.name = some c := by
  cases c <;> rfl

theorem structureMapping_unstructure (m : Mapping) :
    structureMapping (unstructureMapping m) = some m := by
  obtain ⟨dl, src, pn, idx, sms, smc, dc, ds, xs, md⟩ := m
  cases dc <;> cases md <;>
    simp [structureMapping, unstructureMapping, structDisConf,
      smc_ofValue_value, dc_ofValue_value]

theorem structureMappings_unstructure :
    ∀ (l : List Mapping), structureMappings (l.map unstructureMapping) = some l := by
  intro l
  induction l with
  | nil => rfl
  | cons m ms ih =>
      rw [show structureMappings ((m :: ms).map unstructureMapping)
            = match structureMapping (unstructureMapping m),
                structureMappings (ms.map unstructureMapping) with
              | some m', some ms' => some (m' :: ms')
              | _, _ => none from rfl,
          structureMapping_unstructure, ih]

theorem structureEqIdSet_unstructure (s : EquivalentIdSet) :
    structureEqIdSet (unstructureEqIdSet s) = s := by
  obtain ⟨l⟩ := s
  cases l <;> simp [structureEqIdSet, unstructureEqIdSet]

theorem map_structureEqIdSet_unstructure :
    ∀ (l : List EquivalentIdSet),
      (l.map unstructureEqIdSet).map structureEqIdSet = l := by
  intro l
  induction l with
  | nil => rfl
  | cons s ss ih => simp [structureEqIdSet_unstructure, ih]

theorem map_structureEqIdSet_comp (l : List EquivalentIdSet) :
    List.map (structureEqIdSet ∘ unstructureEqIdSet) l = l := by
  rw [← List.map_map]
  exact map_structureEqIdSet_unstructure l

theorem structureSTWM_unstructure (m : SynonymTermWithMetrics) :
    structureSTWM (unstructureSTWM m) = some m := by
  obtain ⟨ts, tn, pn, sym, ai, ag, mt, s1, s2, s3, s4⟩ := m
  cases mt <;>
    simp [structureSTWM, unstructureSTWM, agg_ofValue_value,
      map_structureEqIdSet_comp, map_structureEqIdSet_unstructure]

theorem structureSynTerms_unstructure :
    ∀ (l : List SynonymTermWithMetrics),
      structureSynTerms (l.map unstructureSTWM) = some l := by
  intro l
  induction l with
  | nil => rfl
  | cons m ms ih =>
      rw [show structureSynTerms ((m :: ms).map unstructureSTWM)
            = match structureSTWM (unstructureSTWM m),
                structureSynTerms (ms.map unstructureSTWM) with
              | some m', some ms' => some (m' :: ms')
              | _, _ => none from rfl,
          structureSTWM_unstructure, ih]

theorem structMentionConf_unstructure (mc : MentionConfidence) :
    structMentionConf
      (if mc = .HIGHLY_LIKELY then none else some mc.name) = some mc := by
  by_cases h : mc = .HIGHLY_LIKELY
  · subst h; rfl
  · rw [if_neg h]
    exact mc_fromName_name mc

theorem structureEntity_unstructure (normalize : String → String → String)
    (e : Entity) (h : e.spans ≠ []) :
    ∃ e', structureEntity normalize (unstructureEntity e) = some e' ∧
      entEquiv e' e := by
  obtain ⟨⟨st, en⟩, hp⟩ := calcStartsAndEnds_ok_of_ne_nil e.spans h
  have h2 : structureMappings
      ((if e.mappings = [] then none
        else some (e.mappings.map unstructureMapping)).getD []) = some e.mappings := by
    by_cases hm : e.mappings = []
    · rw [if_pos hm, hm]; rfl
    · rw [if_neg hm]
      exact structureMappings_unstructure e.mappings
  have h3 : structureSynTerms
      ((if e.syn_term_to_synonym_terms = [] then none
        else some (e.syn_term_to_synonym_terms.map unstructureSTWM)).getD [])
      = some e.syn_term_to_synonym_terms := by
    by_cases hs : e.syn_term_to_synonym_terms = []
    · rw [if_pos hs, hs]; rfl
    · rw [if_neg hs]
      exact structureSynTerms_unstructure e.syn_term_to_synonym_terms
  have h4 : (if e.metadata = [] then none else some e.metadata).getD []
      = e.metadata := by
    by_cases hm : e.metadata = []
    · rw [if_pos hm, hm]; rfl
    · rw [if_neg hm]; rfl
  refine ⟨{ uid := 0, match_ := e.match_, entity_class := e.entity_class,
            spans := e.spans, namespace_ := e.namespace_,
            mention_confidence := e.mention_confidence, mappings := e.mappings,
            metadata := e.metadata, start := st, end_ := en,
            match_norm := normalize e.match_ e.entity_class,
            syn_term_to_synonym_terms := e.syn_term_to_synonym_terms },
         ?_, ⟨rfl, rfl, rfl, rfl, rfl, rfl, rfl, rfl⟩⟩
  simp only [structureEntity, unstructureEntity,
    structMentionConf_unstructure e.mention_confidence, h2, h3, mkEntity, h4, hp]

theorem structureEntities_unstructure (normalize : String → String → String) :
    ∀ (l : List Entity), (∀ e ∈ l, e.spans ≠ []) →
      ∃ l', structureEntities normalize (l.map unstructureEntity) = some l' ∧
        List.Forall₂ entEquiv l' l := by
  intro l
  induction l with
  | nil => intro _; exact ⟨[], rfl, List.Forall₂.nil⟩
  | cons e es ih =>
      intro h
      obtain ⟨e', he', heq⟩ :=
        structureEntity_unstructure normalize e (h e (List.mem_cons_self _ _))
      obtain ⟨es', hes', heqs⟩ := ih (fun x hx => h x (List.mem_cons_of_mem _ hx))
      refine ⟨e' :: es', ?_, List.Forall₂.cons heq heqs⟩
      rw [show structureEntities normalize ((e :: es).map unstructureEntity)
            = match structureEntity normalize (unstructureEntity e),
                structureEntities normalize (es.map unstructureEntity) with
              | some x, some xs => some (x :: xs)
              | _, _ => none from rfl,
          he', hes']

theorem structureSection_unstructure (normalize : String → String → String)
    (s : Section) (h : ∀ e ∈ s.entities, e.spans ≠ []) :
    ∃ s', structureSection normalize (unstructureSection s) = some s' ∧
      sectionEquiv s' s := by
  have hents : ∃ l', structureEntities normalize
      ((if s.entities = [] then none
        else some (s.entities.map unstructureEntity)).getD []) = some l' ∧
      List.Forall₂ entEquiv l' s.entities := by
    by_cases he : s.entities = []
    · rw [if_pos he, he]
      exact ⟨[], rfl, List.Forall₂.nil⟩
    · rw [if_neg he]
      exact structureEntities_unstructure normalize s.entities h
  obtain ⟨l', hl', heql⟩ := hents
  have hmeta : (if s.metadata = [] then none else some s.metadata).getD []
      = s.metadata := by
    by_cases hm : s.metadata = []
    · rw [if_pos hm, hm]; rfl
    · rw [if_neg hm]; rfl
  refine ⟨{ text := s.text, name := s.name, metadata := s.metadata,
            entities := l',
            _sentence_spans :=
              match s._sentence_spans with
              | none => none
              | some l => if l.length = 0 then none else some l },
          ?_, rfl, rfl, rfl, ?_, heql⟩
  · simp only [structureSection, unstructureSection, hl', hmeta]
    rfl
  · show (match s._sentence_spans with
        | none => none
        | some l => if l.length = 0 then none else some l : Option (List CharSpan)).getD []
      = s._sentence_spans.getD []
    cases hss : s._sentence_spans with
    | none => rfl
    | some l =>
        by_cases hl : l.length = 0
        · rw [List.length_eq_zero.mp hl]
          rfl
        · simp only [hl, if_false]

theorem structureSections_unstructure (normalize : String → String → String) :
    ∀ (L : List Section), (∀ s ∈ L, ∀ e ∈ s.entities, e.spans ≠ []) →
      ∃ L', structureSections normalize (L.map unstructureSection) = some L' ∧
        List.Forall₂ sectionEquiv L' L := by
  intro L
  induction L with
  | nil => intro _; exact ⟨[], rfl, List.Forall₂.nil⟩
  | cons s ss ih =>
      intro h
      obtain ⟨s', hs', heq⟩ :=
        structureSection_unstructure normalize s (h s (List.mem_cons_self _ _))
      obtain ⟨ss', hss', heqs⟩ := ih (fun x hx => h x (List.mem_cons_of_mem _ hx))
      refine ⟨s' :: ss', ?_, List.Forall₂.cons heq heqs⟩
      rw [show structureSections normalize ((s :: ss).map unstructureSection)
            = match structureSection normalize (unstructureSection s),
                structureSections normalize (ss.map unstructureSection) with
              | some x, some xs => some (x :: xs)
              | _, _ => none from rfl,
          hs', hss']

/-- C9: serializing a Document to the structural record format and
structuring it back with no minification is lossless: the result has the
same idx and metadata, the same sections in order (same text, name,
metadata and observable sentence spans), and for each entity the same
match, entity_class, spans, namespace, mention_confidence, mappings,
metadata and synonym terms.  (Entities must carry at least one span, the
construction invariant.) -/
theorem C9_roundtrip (normalize : String → String → String) (d : Document)
    (h : ∀ s ∈ d.sections, ∀ e ∈ s.entities, e.spans ≠ []) :
    ∃ d', structureDocument normalize (unstructureDocument d) = some d' ∧
      docEquiv d' d := by
  have hsecs : ∃ L', structureSections normalize
      ((if d.sections = [] then none
        else some (d.sections.map unstructureSection)).getD []) = some L' ∧
      List.Forall₂ sectionEquiv L' d.sections := by
    by_cases hs : d.sections = []
    · rw [if_pos hs, hs]
      exact ⟨[], rfl, List.Forall₂.nil⟩
    · rw [if_neg hs]
      exact structureSections_unstructure normalize d.sections h
  obtain ⟨L', hL', heqL⟩ := hsecs
  have hmeta : (if d.metadata = [] then none else some d.metadata).getD []
      = d.metadata := by
    by_cases hm : d.metadata = []
    · rw [if_pos hm, hm]; rfl
    · rw [if_neg hm]; rfl
  refine ⟨{ idx := d.idx, sections := L', metadata := d.metadata },
          ?_, rfl, rfl, heqL⟩
  simp only [structureDocument, unstructureDocument, hL', hmeta]

theorem C9_witness :
    (∀ s ∈ docW.sections, ∀ e ∈ s.entities, e.spans ≠ []) ∧
    (∃ d', structureDocument norm0 (unstructureDocument docW) = some d' ∧
      docEquiv d' docW) :=
  ⟨by decide, C9_roundtrip norm0 docW (by decide)⟩
